import Mathlib

/-!
Verification of the loxide bytecode compiler and VM (a Rust port of the
clox interpreter) against its natural-language specification.

The development shallowly embeds the parts of the source that the claims
touch:

* `src/src/chunk/operations.rs` — the `OpCode` enumeration and its `u8`
  conversions;
* `src/src/scanner.rs` — token kinds and the lexing of numbers and
  single-character tokens;
* `src/src/compiler.rs` — the infix emission table of `Parser::binary`
  and the sticky `had_error` / `panic_mode` diagnostic flags driving the
  result of `compile`;
* `src/src/vm.rs` — `VM::peek`, `VM::call`, `VM::capture_upvalue`,
  `VM::close_upvalues`, and the `SetGlobal` and `Return` arms of
  `VM::run`;
* `src/src/value.rs` / `src/src/object.rs` — `create_string_value` and
  `ObjString`'s equality.

Machine integers: all the quantities involved (stack indices, frame
counts, byte values) are `usize`/`u8` values that the source keeps far
from overflow, so they are modelled as `Nat`; the one place where a
`usize` subtraction can underflow (`VM::peek`) is modelled explicitly,
with `Option.none` standing for the Rust panic.  Raw pointers into the
value stack (`*mut Value`) are compared by address in the source; they
are modelled by the stack-slot index.  The value stack itself is a list
whose head is the bottom slot (index 0), mirroring the array plus
`stack_index` of the source.
-/

namespace Loxide

/-- `InterpretError` from src/src/vm.rs (lines 28-32). -/
inductive InterpretError where
  | Compile
  | Runtime
deriving DecidableEq

/-- Runtime values.  The vm.rs in this snapshot uses the pre-refactor
value model `{Nil, Bool(bool), Number(f64), Obj(*mut Object)}`.  None of
the claims settled here depends on float arithmetic, so the number
payload is left abstract as an integer code, and an object reference is
its heap address. -/
inductive Value where
  | nil
  | bool (b : Bool)
  | num (n : Int)
  | obj (addr : Nat)
deriving DecidableEq

/-- `OpCode` from src/src/chunk/operations.rs (lines 1-41), a `repr(u8)`
enum whose discriminants run from `Constant = 0` to `Return = 36`. -/
inductive OpCode where
  | Constant
  | Nil
  | True
  | False
  | Pop
  | GetLocal
  | SetLocal
  | GetGlobal
  | DefineGlobal
  | SetGlobal
  | GetUpvalue
  | SetUpvalue
  | GetProperty
  | SetProperty
  | GetSuper
  | Equal
  | Greater
  | Less
  | Add
  | Subtract
  | Multiply
  | Divide
  | Not
  | Negate
  | Print
  | Jump
  | JumpIfFalse
  | Loop
  | Call
  | Invoke
  | SuperInvoke
  | Closure
  | CloseUpvalue
  | Class
  | Inherit
  | Method
  | Return
deriving DecidableEq

namespace OpCode

/-- `impl Into<u8> for OpCode` (operations.rs 53-57): the `repr(u8)`
discriminant of the variant, in declaration order starting at 0. -/
def toU8 : OpCode → Nat
  | .Constant => 0
  | .Nil => 1
  | .True => 2
  | .False => 3
  | .Pop => 4
  | .GetLocal => 5
  | .SetLocal => 6
  | .GetGlobal => 7
  | .DefineGlobal => 8
  | .SetGlobal => 9
  | .GetUpvalue => 10
  | .SetUpvalue => 11
  | .GetProperty => 12
  | .SetProperty => 13
  | .GetSuper => 14
  | .Equal => 15
  | .Greater => 16
  | .Less => 17
  | .Add => 18
  | .Subtract => 19
  | .Multiply => 20
  | .Divide => 21
  | .Not => 22
  | .Negate => 23
  | .Print => 24
  | .Jump => 25
  | .JumpIfFalse => 26
  | .Loop => 27
  | .Call => 28
  | .Invoke => 29
  | .SuperInvoke => 30
  | .Closure => 31
  | .CloseUpvalue => 32
  | .Class => 33
  | .Inherit => 34
  | .Method => 35
  | .Return => 36

/-- The inverse of the discriminant map, total on 0..36; the caller
(`ofU8`) only reaches it for bytes at most 36, matching the guarded
`transmute` of the source. -/
def ofDiscriminant : Nat → OpCode
  | 0 => .Constant
  | 1 => .Nil
  | 2 => .True
  | 3 => .False
  | 4 => .Pop
  | 5 => .GetLocal
  | 6 => .SetLocal
  | 7 => .GetGlobal
  | 8 => .DefineGlobal
  | 9 => .SetGlobal
  | 10 => .GetUpvalue
  | 11 => .SetUpvalue
  | 12 => .GetProperty
  | 13 => .SetProperty
  | 14 => .GetSuper
  | 15 => .Equal
  | 16 => .Greater
  | 17 => .Less
  | 18 => .Add
  | 19 => .Subtract
  | 20 => .Multiply
  | 21 => .Divide
  | 22 => .Not
  | 23 => .Negate
  | 24 => .Print
  | 25 => .Jump
  | 26 => .JumpIfFalse
  | 27 => .Loop
  | 28 => .Call
  | 29 => .Invoke
  | 30 => .SuperInvoke
  | 31 => .Closure
  | 32 => .CloseUpvalue
  | 33 => .Class
  | 34 => .Inherit
  | 35 => .Method
  | _ => .Return

/-- `impl TryInto<OpCode> for u8` (operations.rs 42-51): bytes above the
discriminant of `Return` are rejected, all others transmute to the
variant with that discriminant. -/
def ofU8 (b : Nat) : Except Unit OpCode :=
  if b > OpCode.Return.toU8 then Except.error ()
  else Except.ok (ofDiscriminant b)

end OpCode

/-- `TokenKind` from src/src/scanner.rs (lines 3-48). -/
inductive TokenKind where
  | LeftParen
  | RightParen
  | LeftBrace
  | RightBrace
  | Comma
  | Dot
  | Minus
  | Plus
  | Semicolon
  | Slash
  | Star
  | Bang
  | BangEqual
  | Equal
  | EqualEqual
  | Greater
  | GreaterEqual
  | Less
  | LessEqual
  | Identifier
  | String
  | Number
  | And
  | Class
  | Else
  | False
  | For
  | Fun
  | If
  | Nil
  | Or
  | Print
  | Return
  | Super
  | This
  | True
  | Var
  | While
  | Error
  | EOF
deriving DecidableEq

namespace Scanner

/-- The digit test `('0'..='9').contains(&c)` used by `Scanner::number`
and `Scanner::scan_token`. -/
def isDigit (c : Char) : Bool :=
  decide ('0' ≤ c ∧ c ≤ '9')

/-- The identifier-start test `'a'..='z' | 'A'..='Z' | '_'` of
`Scanner::scan_token` (scanner.rs 349). -/
def isAlpha (c : Char) : Bool :=
  decide (('a' ≤ c ∧ c ≤ 'z') ∨ ('A' ≤ c ∧ c ≤ 'Z') ∨ c = '_')

/-- The maximal run of decimal digits at the front of the input: the
`'integer`/`'fraction` loops of `Scanner::number` (scanner.rs 254-264
and 267-277), which `advance` while `peek` is a digit.  Returns the
consumed run and the remaining input. -/
def takeDigits : List Char → List Char × List Char
  | [] => ([], [])
  | c :: cs =>
    if isDigit c then
      let (ds, rest) := takeDigits cs
      (c :: ds, rest)
    else ([], c :: cs)

/-- The alphanumeric run consumed by `Scanner::identifier`
(scanner.rs 238-251). -/
def takeAlphaNum : List Char → List Char × List Char
  | [] => ([], [])
  | c :: cs =>
    if isDigit c || isAlpha c then
      let (ds, rest) := takeAlphaNum cs
      (c :: ds, rest)
    else ([], c :: cs)

/-- `Scanner::number` (scanner.rs 253-280): consume the integer digits;
then, only if the next character is `'.'` AND the one after it is a
digit (`self.peek() == Some('.') && self.peek_next().is_some_and(..)`),
consume the dot and the fractional digits.  Returns the number's lexeme
and the remaining input. -/
def number (input : List Char) : List Char × List Char :=
  let (ds, rest) := takeDigits input
  match rest with
  | '.' :: c :: rest2 =>
    if isDigit c then
      let (fs, rest3) := takeDigits (c :: rest2)
      (ds ++ '.' :: fs, rest3)
    else (ds, rest)
  | _ => (ds, rest)

/-- `Scanner::string` (scanner.rs 282-295): consume until the closing
quote; `none` models the unterminated-string error token. -/
def stringBody : List Char → Option (List Char × List Char)
  | [] => none
  | c :: cs =>
    if c = '"' then some ([c], cs)
    else (stringBody cs).map (fun p => (c :: p.1, p.2))

/-- `Scanner::scan_token` (scanner.rs 297-354) after `skip_whitespace`:
dispatch on the first character and return the token kind, its lexeme and
the remaining input.  The keyword refinement of identifiers
(`identifier_kind`, scanner.rs 199-236) distinguishes keyword kinds from
`Identifier` by lexeme; no claim settled here depends on it, so the
identifier arm uniformly returns `Identifier`. -/
def scan_token : List Char → TokenKind × List Char × List Char
  | [] => (TokenKind.EOF, [], [])
  | c :: cs =>
    if c = '(' then (TokenKind.LeftParen, [c], cs)
    else if c = ')' then (TokenKind.RightParen, [c], cs)
    else if c = '\x7b' then (TokenKind.LeftBrace, [c], cs)
    else if c = '\x7d' then (TokenKind.RightBrace, [c], cs)
    else if c = ';' then (TokenKind.Semicolon, [c], cs)
    else if c = ',' then (TokenKind.Comma, [c], cs)
    else if c = '.' then (TokenKind.Dot, [c], cs)
    else if c = '-' then (TokenKind.Minus, [c], cs)
    else if c = '+' then (TokenKind.Plus, [c], cs)
    else if c = '/' then (TokenKind.Slash, [c], cs)
    else if c = '*' then (TokenKind.Star, [c], cs)
    else if c = '"' then
      match stringBody cs with
      | some (lex, rest) => (TokenKind.String, c :: lex, rest)
      | none => (TokenKind.Error, [], [])
    else if c = '=' then
      match cs with
      | '=' :: cs2 => (TokenKind.EqualEqual, [c, '='], cs2)
      | _ => (TokenKind.Equal, [c], cs)
    else if c = '!' then
      match cs with
      | '=' :: cs2 => (TokenKind.BangEqual, [c, '='], cs2)
      | _ => (TokenKind.Bang, [c], cs)
    else if c = '>' then
      match cs with
      | '=' :: cs2 => (TokenKind.GreaterEqual, [c, '='], cs2)
      | _ => (TokenKind.Greater, [c], cs)
    else if c = '<' then
      match cs with
      | '=' :: cs2 => (TokenKind.LessEqual, [c, '='], cs2)
      | _ => (TokenKind.Less, [c], cs)
    else if isDigit c then
      let (lex, rest) := number (c :: cs)
      (TokenKind.Number, lex, rest)
    else if isAlpha c then
      let (lex, rest) := takeAlphaNum (c :: cs)
      (TokenKind.Identifier, lex, rest)
    else (TokenKind.Error, [], cs)

end Scanner

namespace Parser

/-- The opcode sequence emitted by `Parser::binary` for each infix
operator token, from the `match operator_kind` of src/src/compiler.rs
lines 638-650.  The wildcard arm is `unreachable!()` in the source and
emits nothing. -/
def binaryOps : TokenKind → List OpCode
  | .Plus => [OpCode.Add]
  | .Minus => [OpCode.Subtract]
  | .Star => [OpCode.Multiply]
  | .Slash => [OpCode.Divide]
  | .BangEqual => [OpCode.Equal, OpCode.Not]
  | .EqualEqual => [OpCode.Equal]
  | .Greater => [OpCode.Greater]
  | .GreaterEqual => [OpCode.Less, OpCode.Not]
  | .Less => [OpCode.Less]
  | .LessEqual => [OpCode.Greater, OpCode.Not]
  | _ => []

end Parser

namespace CompileFlags

/-- The two diagnostic flags of the parser (compiler.rs 347-356):
`had_error` and `panic_mode`. -/
structure ErrState where
  had_error : Bool
  panic_mode : Bool
deriving DecidableEq

/-- The flag effect of the free function `error` (compiler.rs 165-183):
in panic mode the diagnostic is suppressed entirely (early return before
any flag is touched or anything is written); otherwise `panic_mode` and
`had_error` are both set and the diagnostic is written to the error
sink.  The returned Bool records whether the diagnostic was written. -/
def reportError (s : ErrState) : ErrState × Bool :=
  if s.panic_mode then (s, false)
  else ({ had_error := true, panic_mode := true }, true)

/-- `Parser::synchronize` (compiler.rs 1092-1111) clears `panic_mode`
and never touches `had_error`. -/
def synchronize (s : ErrState) : ErrState :=
  { s with panic_mode := false }

/-- The two kinds of events that touch the diagnostic flags during a
parse: a diagnostic (`error(..)` call) and a synchronization. -/
inductive ParseEvent where
  | diag
  | sync
deriving DecidableEq

def stepEvent (s : ErrState) : ParseEvent → ErrState
  | .diag => (reportError s).1
  | .sync => synchronize s

def runEvents : ErrState → List ParseEvent → ErrState
  | s, [] => s
  | s, e :: es => runEvents (stepEvent s e) es

/-- `compile` (compiler.rs 1180-1194): parsing starts with both flags
clear; after the declaration loop, the result is the compiled function
when `had_error` is clear and `Err(InterpretError::Compile)` when it is
set.  The parse itself is abstracted to the trace of flag events it
performs. -/
def compileOutcome (events : List ParseEvent) : Except InterpretError Unit :=
  match (runEvents ⟨false, false⟩ events).had_error with
  | false => Except.ok ()
  | true => Except.error InterpretError.Compile

end CompileFlags

namespace VM

/-- `VM::peek` (vm.rs 178-186).  The source raises a runtime error when
`index > stack_index` and otherwise reads
`stack[stack_index - index - 1]` with `usize` arithmetic; when
`index = stack_index` that subtraction underflows and the program
panics, modelled here by `none`. -/
def peek (stack : List Value) (index : Nat) : Option (Except InterpretError Value) :=
  if index > stack.length then some (Except.error InterpretError.Runtime)
  else if h : index < stack.length then
    some (Except.ok (stack.get ⟨stack.length - index - 1, by omega⟩))
  else none

/-- `VM::call` (vm.rs 194-217), reduced to the data it decides: given
the callee's declared `arity`, the supplied `arg_count`, the current
`frame_count` and `stack_index`, it either raises a runtime error (with
the message the source formats) or answers the `stack_offset` of the
frame it pushes.  Note the source interpolates `arg_count` first and
`arity` second. -/
def call (arity argCount frameCount stackIndex : Nat) :
    Except (InterpretError × String) Nat :=
  if argCount ≠ arity then
    Except.error (InterpretError.Runtime,
      "Expected " ++ toString argCount ++ " arguments but got " ++ toString arity)
  else if frameCount = 64 then
    Except.error (InterpretError.Runtime, "Stack overflow.")
  else
    Except.ok (stackIndex - argCount - 1)

/-- `VM::close_upvalues` (vm.rs 326-333) on the open-upvalue list,
represented by its list of locations (stack-slot indices, descending):
while the head's location is at or above `last`, the head is closed
(its value copied into `closed`, its location nulled) and removed from
the open list. -/
def close_upvalues (openUpvalues : List Nat) (last : Nat) : List Nat :=
  match openUpvalues with
  | [] => []
  | loc :: rest => if loc ≥ last then close_upvalues rest last else loc :: rest

/-- `VM::capture_upvalue` (vm.rs 305-324) on the open-upvalue list of
locations.  The walk skips entries while `location > local`, keeping
`previous_upvalue` at the last skipped node.  If the next entry equals
`local` it is reused and the list is unchanged.  Otherwise a fresh
upvalue is allocated — `Object::new_upvalue` initializes its `next` to
null (`ObjUpvalue::new`, object.rs 236-245), and `capture_upvalue` never
assigns the new upvalue's `next` — and the splice only sets
`previous_upvalue.next = created` (or the list head when no node was
skipped).  Consequently the successor chain from the walk's stopping
point is dropped from the list.  `acc` accumulates the skipped nodes. -/
def captureGo (acc : List Nat) (remaining : List Nat) (target : Nat) : List Nat :=
  match remaining with
  | [] => acc ++ [target]
  | loc :: rest =>
    if loc > target then captureGo (acc ++ [loc]) rest target
    else if loc = target then acc ++ loc :: rest
    else acc ++ [target]

/-- The open-upvalue list after `VM::capture_upvalue` runs for stack
slot `target` (the `local` argument of the source). -/
def capture_upvalue (openUpvalues : List Nat) (target : Nat) : List Nat :=
  captureGo [] openUpvalues target

/-- A call frame as far as the `Return` arm consults it: its base stack
offset (vm.rs 33-38). -/
structure CallFrame where
  stack_offset : Nat
deriving DecidableEq

/-- The VM state touched by the `Return` opcode: the value stack (head =
slot 0, length = `stack_index`), the frame stack (head = outermost,
length = `frame_count`), and the open-upvalue list of locations. -/
structure RetState where
  stack : List Value
  frames : List CallFrame
  openUpvalues : List Nat
deriving DecidableEq

/-- The `OpCode::Return` arm of `VM::run` (vm.rs 534-544), verbatim:
pop the return value (`self.pop()?`); read the current frame's
`stack_offset`; decrement `frame_count`; if no frame remains, pop the
callee and halt with success (`true`); otherwise set `stack_index` to
the saved offset and push the return value (`false` = keep running).
`none` models the panic of `frames[frame_count - 1]` when
`frame_count = 0`.  The arm never touches `open_upvalues`. -/
def runReturn (s : RetState) : Option (Except InterpretError (RetState × Bool)) :=
  match s.stack.getLast? with
  | none => some (Except.error InterpretError.Runtime)
  | some result =>
    match s.frames.getLast? with
    | none => none
    | some frame =>
      let stack1 := s.stack.dropLast
      let frames1 := s.frames.dropLast
      if frames1.isEmpty then
        match stack1.getLast? with
        | none => some (Except.error InterpretError.Runtime)
        | some _ =>
          some (Except.ok ({ s with stack := stack1.dropLast, frames := frames1 }, true))
      else
        let stack2 := stack1.take frame.stack_offset
        if stack2.length ≥ 255 then some (Except.error InterpretError.Runtime)
        else
          some (Except.ok ({ s with stack := stack2 ++ [result], frames := frames1 }, false))

/-- Lookup in the globals table.  The source keys the map by interned
string pointer; the embedding keys it by name, which agrees with the
source whenever distinct entries carry distinct names. -/
def lookupG : List (String × Value) → String → Option Value
  | [], _ => none
  | (k, w) :: rest, name => if k = name then some w else lookupG rest name

/-- Overwriting an occupied entry (`*occupied.get_mut() = value`). -/
def setAssoc : List (String × Value) → String → Value → List (String × Value)
  | [], _, _ => []
  | (k, w) :: rest, name, v =>
    if k = name then (k, v) :: rest else (k, w) :: setAssoc rest name v

/-- Outcome of one `SetGlobal` execution: success with the new globals
and stack, a runtime error with its message and the post-error globals
and stack (`runtime_error`, vm.rs 149-162, resets the stack), or a
panic. -/
inductive SetGlobalResult where
  | ok (globals : List (String × Value)) (stack : List Value)
  | err (msg : String) (globals : List (String × Value)) (stack : List Value)
  | panic
deriving DecidableEq

/-- The `OpCode::SetGlobal` arm of `VM::run` (vm.rs 592-610): read the
value with `peek(0)` (no pop); if the name's entry is occupied,
overwrite it in place; if it is vacant, raise the runtime error
`Undefined variable '<name>'`, leaving the globals untouched (the error
path resets the stack).  `peek(0)` on an empty stack panics (see
`VM.peek`). -/
def setGlobal (globals : List (String × Value)) (stack : List Value)
    (name : String) : SetGlobalResult :=
  match stack.getLast? with
  | none => SetGlobalResult.panic
  | some value =>
    match lookupG globals name with
    | some _ => SetGlobalResult.ok (setAssoc globals name value) stack
    | none =>
      SetGlobalResult.err ("Undefined variable '" ++ name ++ "'") globals []

end VM

namespace StringHeap

/-- `create_string_value` (value.rs 256-258):
`Value::String(ObjString::new(source).into())` — `ObjString::new`
(object.rs 171-174) unconditionally allocates a fresh cell; no table of
existing strings is consulted.  Returns the grown heap and the new
cell's address. -/
def create_string_value (heap : List String) (source : String) :
    List String × Nat :=
  (heap ++ [source], heap.length)

/-- `copy_string` (value.rs 260-262) forwards to
`create_string_value`. -/
def copy_string (heap : List String) (source : String) : List String × Nat :=
  create_string_value heap source

/-- `impl PartialEq for ObjString` (object.rs 206-210): two string cells
compare equal exactly when their contents are equal. -/
def objStringEq (heap : List String) (i j : Nat) : Bool :=
  heap.getD i "" = heap.getD j ""

end StringHeap

/-!
Theorems.  Helper lemmas come first; the claim theorems and their
witnesses follow.
-/

namespace Scanner

/-- Splitting lemma for the digit loop: on an input that is an all-digit
run followed by input not starting with a digit, `takeDigits` consumes
exactly the run. -/
theorem takeDigits_split (ds rest : List Char)
    (hds : ∀ c ∈ ds, isDigit c = true)
    (hrest : ∀ c, rest.head? = some c → isDigit c = false) :
    takeDigits (ds ++ rest) = (ds, rest) := by
  induction ds with
  | nil =>
    simp only [List.nil_append]
    cases rest with
    | nil => rfl
    | cons c cs =>
      have hc := hrest c rfl
      simp [takeDigits, hc]
  | cons d ds ih =>
    have hd : isDigit d = true := hds d (by simp)
    have ih' := ih (fun c hc => hds c (by simp [hc]))
    simp [takeDigits, hd, ih']

/-- `Scanner::number` on digits followed by a bare `'.'` (no digit after
it): the dot is not consumed. -/
theorem number_stops_at_bare_dot (ds rest : List Char)
    (hds : ∀ c ∈ ds, isDigit c = true)
    (hrest : ∀ c, rest.head? = some c → isDigit c = false) :
    number (ds ++ '.' :: rest) = (ds, '.' :: rest) := by
  have hdot : ∀ c, ('.' :: rest).head? = some c → isDigit c = false := by
    intro c hc
    simp only [List.head?] at hc
    cases hc
    decide
  have ht := takeDigits_split ds ('.' :: rest) hds hdot
  unfold number
  rw [ht]
  cases rest with
  | nil => rfl
  | cons c rest2 =>
    have hc := hrest c rfl
    simp [hc]

/-- `Scanner::number` on digits, a dot, and a nonempty digit run: the
whole fraction is consumed. -/
theorem number_with_fraction (ds fs rest : List Char)
    (hds : ∀ c ∈ ds, isDigit c = true)
    (hfs : fs ≠ [])
    (hfsd : ∀ c ∈ fs, isDigit c = true)
    (hrest : ∀ c, rest.head? = some c → isDigit c = false) :
    number (ds ++ ('.' :: (fs ++ rest))) = (ds ++ ('.' :: fs), rest) := by
  obtain ⟨f, fs', rfl⟩ : ∃ f fs', fs = f :: fs' := by
    cases fs with
    | nil => exact absurd rfl hfs
    | cons f fs' => exact ⟨f, fs', rfl⟩
  have hdot : ∀ c, ('.' :: ((f :: fs') ++ rest)).head? = some c → isDigit c = false := by
    intro c hc
    simp only [List.cons_append, List.head?] at hc
    cases hc
    decide
  have ht := takeDigits_split ds ('.' :: ((f :: fs') ++ rest)) hds hdot
  have hf : isDigit f = true := hfsd f (by simp)
  have ht2 := takeDigits_split (f :: fs') rest (fun c hc => hfsd c hc) hrest
  simp only [List.cons_append] at ht ht2
  unfold number
  simp [List.cons_append, ht, hf, ht2]

/-- `Scanner::scan_token` on input starting with a digit takes the
number branch: none of the punctuation tests can match a digit. -/
theorem scan_token_digit (c : Char) (cs : List Char)
    (h : isDigit c = true) :
    scan_token (c :: cs) =
      (TokenKind.Number, (number (c :: cs)).1, (number (c :: cs)).2) := by
  have k : ∀ χ : Char, isDigit χ = false → c ≠ χ := by
    intro χ hχ he
    rw [he, hχ] at h
    exact Bool.noConfusion h
  simp only [scan_token]
  rw [if_neg (k '(' (by decide)), if_neg (k ')' (by decide)),
    if_neg (k '\x7b' (by decide)), if_neg (k '\x7d' (by decide)),
    if_neg (k ';' (by decide)), if_neg (k ',' (by decide)),
    if_neg (k '.' (by decide)), if_neg (k '-' (by decide)),
    if_neg (k '+' (by decide)), if_neg (k '/' (by decide)),
    if_neg (k '*' (by decide)), if_neg (k '"' (by decide)),
    if_neg (k '=' (by decide)), if_neg (k '!' (by decide)),
    if_neg (k '>' (by decide)), if_neg (k '<' (by decide)), if_pos h]

end Scanner

namespace CompileFlags

/-- Characterization of the final `had_error` flag over any event trace,
under the invariant that panic mode implies the error flag (which the
initial state satisfies and every step preserves). -/
theorem runEvents_had_error_iff (es : List ParseEvent) (s : ErrState)
    (hinv : s.panic_mode = true → s.had_error = true) :
    ((runEvents s es).had_error = true ↔
      (s.had_error = true ∨ ParseEvent.diag ∈ es)) := by
  induction es generalizing s with
  | nil => simp [runEvents]
  | cons e es ih =>
    cases e with
    | diag =>
      by_cases hp : s.panic_mode = true
      · have hh := hinv hp
        have hstep : stepEvent s ParseEvent.diag = s := by
          simp [stepEvent, reportError, hp]
        rw [runEvents, hstep, ih s hinv]
        simp [hh]
      · have hp' : s.panic_mode = false := by
          cases hq : s.panic_mode
          · rfl
          · exact absurd hq hp
        have hstep : stepEvent s ParseEvent.diag = ⟨true, true⟩ := by
          simp [stepEvent, reportError, hp']
        rw [runEvents, hstep, ih ⟨true, true⟩ (fun _ => rfl)]
        simp
    | sync =>
      have hstep : stepEvent s ParseEvent.sync = { s with panic_mode := false } := rfl
      have hinv' : ({ s with panic_mode := false } : ErrState).panic_mode = true →
          ({ s with panic_mode := false } : ErrState).had_error = true := by
        intro hh
        exact absurd hh (by simp)
      rw [runEvents, hstep, ih _ hinv']
      simp

/-- `compile` answers `Err(InterpretError::Compile)` exactly when the
final `had_error` flag is set. -/
theorem compileOutcome_error_iff (events : List ParseEvent) :
    compileOutcome events = Except.error InterpretError.Compile ↔
      (runEvents ⟨false, false⟩ events).had_error = true := by
  unfold compileOutcome
  cases h : (runEvents ⟨false, false⟩ events).had_error <;> simp

end CompileFlags

namespace VM

/-- After overwriting an occupied entry, the entry holds the new
value. -/
theorem lookupG_setAssoc_self (g : List (String × Value)) (n : String) (v : Value)
    (h : (lookupG g n).isSome) : lookupG (setAssoc g n v) n = some v := by
  induction g with
  | nil => simp [lookupG] at h
  | cons p rest ih =>
    obtain ⟨k, w⟩ := p
    by_cases hk : k = n
    · subst hk
      simp [setAssoc, lookupG]
    · simp only [lookupG, hk, if_false] at h
      simp [setAssoc, lookupG, hk, ih h]

/-- Overwriting one entry leaves every other name's binding
unchanged. -/
theorem lookupG_setAssoc_ne (g : List (String × Value)) (n m : String) (v : Value)
    (h : m ≠ n) : lookupG (setAssoc g n v) m = lookupG g m := by
  induction g with
  | nil => rfl
  | cons p rest ih =>
    obtain ⟨k, w⟩ := p
    by_cases hk : k = n
    · subst hk
      have hkm : ¬ k = m := fun hh => h (hh.symm)
      simp [setAssoc, lookupG, hkm]
    · by_cases hm : k = m
      · subst hm
        simp [setAssoc, lookupG, hk]
      · simp [setAssoc, lookupG, hk, hm, ih]

end VM

/-!
Claim theorems.
-/

/-- Claim C1.  The `Return` arm of `VM::run` (vm.rs 534-544) pops the
return value, pops the frame, and truncates/pushes or halts — but it
never calls `close_upvalues`: executing it on a state whose open-upvalue
list holds a location (slot 2) at or above the returning frame's base
(slot 1) leaves that upvalue open, whereas the claimed semantics
(`close_upvalues` with `last` = frame base, vm.rs 326-333) would close
it and leave the open list empty. -/
theorem VM.return_leaves_upvalues_open :
    VM.runReturn ⟨[Value.obj 0, Value.obj 1, Value.num 7, Value.obj 2],
        [⟨0⟩, ⟨1⟩], [2]⟩ =
      some (Except.ok (⟨[Value.obj 0, Value.obj 2], [⟨0⟩], [2]⟩, false)) ∧
    VM.close_upvalues [2] 1 = [] ∧
    ([2] : List Nat) ≠ ([] : List Nat) := by
  refine ⟨rfl, rfl, by decide⟩

/-- Claim C2.  `create_string_value` (value.rs 256-258) allocates a
fresh cell on every call and consults no interner, so two constructions
of the same contents `"a"` yield distinct cells (addresses 0 and 1) that
`ObjString`'s equality (object.rs 206-210, by contents) nevertheless
reports equal: string equality does not coincide with cell identity. -/
theorem StringHeap.equal_strings_distinct_cells :
    StringHeap.create_string_value [] "a" = (["a"], 0) ∧
    StringHeap.create_string_value ["a"] "a" = (["a", "a"], 1) ∧
    StringHeap.objStringEq ["a", "a"] 0 1 = true ∧
    (0 : Nat) ≠ 1 := by
  refine ⟨rfl, rfl, by decide, by decide⟩

/-- Claim C3.  Over every trace of diagnostic/synchronize events,
`compile` (compiler.rs 1180-1194) returns `Err(InterpretError::Compile)`
exactly when at least one diagnostic occurred — every non-suppressed
diagnostic sets the sticky `had_error` flag, a suppressed one can only
occur while the flag is already set, and nothing ever clears it —
and otherwise it returns the compiled function. -/
theorem CompileFlags.compile_errs_iff_diag (events : List CompileFlags.ParseEvent) :
    (CompileFlags.compileOutcome events = Except.error InterpretError.Compile ↔
      CompileFlags.ParseEvent.diag ∈ events) ∧
    (CompileFlags.ParseEvent.diag ∉ events →
      CompileFlags.compileOutcome events = Except.ok ()) := by
  have hchar := CompileFlags.runEvents_had_error_iff events ⟨false, false⟩ (fun h => h)
  have hmem : (CompileFlags.runEvents ⟨false, false⟩ events).had_error = true ↔
      CompileFlags.ParseEvent.diag ∈ events := by
    rw [hchar]
    simp
  constructor
  · rw [CompileFlags.compileOutcome_error_iff]
    exact hmem
  · intro hnot
    have hfe : (CompileFlags.runEvents ⟨false, false⟩ events).had_error = false := by
      cases hq : (CompileFlags.runEvents ⟨false, false⟩ events).had_error
      · rfl
      · exact absurd (hmem.mp hq) hnot
    unfold CompileFlags.compileOutcome
    rw [hfe]

/-- Witness for C3 at concrete traces: one diagnostic produces the
compile error; a pure synchronization trace compiles successfully. -/
theorem CompileFlags.compile_errs_iff_diag_witness :
    CompileFlags.compileOutcome [CompileFlags.ParseEvent.diag] =
      Except.error InterpretError.Compile ∧
    CompileFlags.compileOutcome [CompileFlags.ParseEvent.sync] = Except.ok () := by
  constructor
  · exact (CompileFlags.compile_errs_iff_diag [CompileFlags.ParseEvent.diag]).1.mpr
      (by decide)
  · exact (CompileFlags.compile_errs_iff_diag [CompileFlags.ParseEvent.sync]).2
      (by decide)

/-- Claim C4.  The `SetGlobal` arm (vm.rs 592-610): when the name is
present in the globals, the top-of-stack value overwrites the entry
(other entries untouched) and the stack is returned unchanged — the
value is not popped; when the name is absent, the runtime error
`Undefined variable '<name>'` is raised and the globals are returned
unchanged. -/
theorem VM.setGlobal_spec (g : List (String × Value)) (st : List Value)
    (n : String) (v : Value) (htop : st.getLast? = some v) :
    ((VM.lookupG g n).isSome →
      VM.setGlobal g st n = VM.SetGlobalResult.ok (VM.setAssoc g n v) st ∧
      VM.lookupG (VM.setAssoc g n v) n = some v ∧
      (∀ m, m ≠ n → VM.lookupG (VM.setAssoc g n v) m = VM.lookupG g m)) ∧
    (VM.lookupG g n = none →
      VM.setGlobal g st n =
        VM.SetGlobalResult.err ("Undefined variable '" ++ n ++ "'") g []) := by
  constructor
  · intro hdef
    obtain ⟨w, hw⟩ := Option.isSome_iff_exists.mp hdef
    refine ⟨?_, VM.lookupG_setAssoc_self g n v hdef,
      fun m hm => VM.lookupG_setAssoc_ne g n m v hm⟩
    simp [VM.setGlobal, htop, hw]
  · intro hnone
    simp [VM.setGlobal, htop, hnone]

/-- Witness for C4: overwriting a defined global keeps the stack intact;
assigning an undefined one errors with the exact message and untouched
globals. -/
theorem VM.setGlobal_spec_witness :
    VM.setGlobal [("x", Value.nil)] [Value.num 3] "x" =
      VM.SetGlobalResult.ok [("x", Value.num 3)] [Value.num 3] ∧
    VM.setGlobal [("x", Value.nil)] [Value.num 3] "y" =
      VM.SetGlobalResult.err "Undefined variable 'y'" [("x", Value.nil)] [] := by
  constructor
  · exact ((VM.setGlobal_spec [("x", Value.nil)] [Value.num 3] "x" (Value.num 3)
      rfl).1 (by decide)).1
  · exact (VM.setGlobal_spec [("x", Value.nil)] [Value.num 3] "y" (Value.num 3)
      rfl).2 rfl

/-- Claim C5.  `VM::call` (vm.rs 194-217) formats its arity error as
`format!("Expected {} arguments but got {}", arg_count, arity)` — the
supplied count first and the declared arity second.  Calling an
arity-2 closure with 4 arguments therefore reports
"Expected 4 arguments but got 2", not the claimed (and repo-test
expected) "Expected 2 arguments but got 4". -/
theorem VM.call_arity_message_swapped :
    VM.call 2 4 1 10 =
      Except.error (InterpretError.Runtime, "Expected 4 arguments but got 2") ∧
    "Expected 4 arguments but got 2" ≠ "Expected 2 arguments but got 4" := by
  refine ⟨rfl, by decide⟩

/-- Claim C6.  `VM::capture_upvalue` (vm.rs 305-324) never links the
freshly allocated upvalue to its successor (`ObjUpvalue::new` initializes
`next` to null and the splice only assigns `previous_upvalue.next`), so
capturing slot 7 against the open list [10, 5] produces [10, 7]: the
previously open upvalue at location 5 is dropped from the list, refuting
preservation of all previously open upvalues. -/
theorem VM.capture_upvalue_drops_successors :
    VM.capture_upvalue [10, 5] 7 = [10, 7] ∧
    5 ∈ ([10, 5] : List Nat) ∧
    5 ∉ VM.capture_upvalue [10, 5] 7 := by
  refine ⟨rfl, by decide, by decide⟩

/-- Claim C7.  `Parser::binary` (compiler.rs 633-651) emits
`GreaterEqual` as the pair `Less; Not`, `LessEqual` as `Greater; Not`,
and `Greater`/`Less` as their single opcodes. -/
theorem Parser.comparison_emission :
    Parser.binaryOps TokenKind.Greater = [OpCode.Greater] ∧
    Parser.binaryOps TokenKind.GreaterEqual = [OpCode.Less, OpCode.Not] ∧
    Parser.binaryOps TokenKind.Less = [OpCode.Less] ∧
    Parser.binaryOps TokenKind.LessEqual = [OpCode.Greater, OpCode.Not] :=
  ⟨rfl, rfl, rfl, rfl⟩

/-- Claim C8.  Number lexing (scanner.rs 253-280, 297-354): on a digit
run followed by a bare `'.'`, the scanner emits a Number token holding
exactly the digits and leaves the dot unconsumed, and the dot then
scans as a `Dot` token; on a digit run, a dot and a nonempty digit run,
the whole lexeme is one Number token. -/
theorem Scanner.number_lexing (ds rest : List Char) (hne : ds ≠ [])
    (hds : ∀ c ∈ ds, Scanner.isDigit c = true)
    (hrest : ∀ c, rest.head? = some c → Scanner.isDigit c = false) :
    Scanner.scan_token (ds ++ '.' :: rest) = (TokenKind.Number, ds, '.' :: rest) ∧
    Scanner.scan_token ('.' :: rest) = (TokenKind.Dot, ['.'], rest) ∧
    (∀ fs rest2, fs ≠ [] → (∀ c ∈ fs, Scanner.isDigit c = true) →
      (∀ c, rest2.head? = some c → Scanner.isDigit c = false) →
      Scanner.scan_token (ds ++ ('.' :: (fs ++ rest2))) =
        (TokenKind.Number, ds ++ ('.' :: fs), rest2)) := by
  obtain ⟨d, ds', rfl⟩ : ∃ d ds', ds = d :: ds' := by
    cases ds with
    | nil => exact absurd rfl hne
    | cons d t => exact ⟨d, t, rfl⟩
  have hd : Scanner.isDigit d = true := hds d (by simp)
  refine ⟨?_, rfl, ?_⟩
  · rw [List.cons_append, Scanner.scan_token_digit d _ hd]
    rw [show d :: (ds' ++ '.' :: rest) = (d :: ds') ++ '.' :: rest from rfl]
    rw [Scanner.number_stops_at_bare_dot (d :: ds') rest hds hrest]
  · intro fs rest2 hfs hfsd hrest2
    have hnum := Scanner.number_with_fraction (d :: ds') fs rest2 hds hfs hfsd hrest2
    have hscan := Scanner.scan_token_digit d (ds' ++ ('.' :: (fs ++ rest2))) hd
    calc Scanner.scan_token ((d :: ds') ++ ('.' :: (fs ++ rest2)))
        = (TokenKind.Number,
            (Scanner.number ((d :: ds') ++ ('.' :: (fs ++ rest2)))).1,
            (Scanner.number ((d :: ds') ++ ('.' :: (fs ++ rest2)))).2) := hscan
      _ = (TokenKind.Number, (d :: ds') ++ ('.' :: fs), rest2) := by
          rw [hnum]

/-- Witness for C8: lexing "1.;" yields Number "1" then Dot, and "1.5;"
yields Number "1.5". -/
theorem Scanner.number_lexing_witness :
    Scanner.scan_token ['1', '.', ';'] = (TokenKind.Number, ['1'], ['.', ';']) ∧
    Scanner.scan_token ['.', ';'] = (TokenKind.Dot, ['.'], [';']) ∧
    Scanner.scan_token ['1', '.', '5', ';'] =
      (TokenKind.Number, ['1', '.', '5'], [';']) := by
  have h := Scanner.number_lexing ['1'] [';'] (by decide) (by decide) (by decide)
  exact ⟨h.1, h.2.1, h.2.2 ['5'] [';'] (by decide) (by decide) (by decide)⟩

/-- Claim C9, counterexample.  `VM::peek` (vm.rs 178-186) guards only
`index > stack_index`; at `index = stack_index` (here: an empty stack
and index 0) the `usize` computation `stack_index - index - 1`
underflows and the program panics (`none`): it neither returns a value
nor signals a runtime error. -/
theorem VM.peek_boundary_panics :
    VM.peek ([] : List Value) 0 = none ∧
    VM.peek ([] : List Value) 0 ≠ some (Except.error InterpretError.Runtime) := by
  refine ⟨rfl, by simp [VM.peek]⟩

/-- Claim C9, amended.  `peek(i)` on a stack of n values returns the
value at position n - 1 - i when i < n and signals a runtime error when
i > n; at exactly i = n the unchecked subtraction underflows (a panic,
modelled as `none`) — the guard catches only i strictly greater
than n. -/
theorem VM.peek_amended_spec (stack : List Value) (i : Nat) :
    (∀ (h : i < stack.length),
      VM.peek stack i =
        some (Except.ok (stack.get ⟨stack.length - i - 1, by omega⟩))) ∧
    (stack.length < i →
      VM.peek stack i = some (Except.error InterpretError.Runtime)) ∧
    (i = stack.length → VM.peek stack i = none) := by
  refine ⟨?_, ?_, ?_⟩
  · intro h
    have hgt : ¬ i > stack.length := by omega
    simp [VM.peek, hgt, h]
  · intro h
    simp [VM.peek, h]
  · intro h
    subst h
    simp [VM.peek]

/-- Witness for C9's amended statement on a one-value stack: peek 0
reads the top, peek 2 errors, peek 1 panics. -/
theorem VM.peek_amended_spec_witness :
    VM.peek [Value.nil] 0 = some (Except.ok Value.nil) ∧
    VM.peek [Value.nil] 2 = some (Except.error InterpretError.Runtime) ∧
    VM.peek [Value.nil] 1 = none := by
  refine ⟨?_, ?_, ?_⟩
  · exact (VM.peek_amended_spec [Value.nil] 0).1 (by decide)
  · exact (VM.peek_amended_spec [Value.nil] 2).2.1 (by decide)
  · exact (VM.peek_amended_spec [Value.nil] 1).2.2 (by decide)

/-- Claim C10.  The opcode byte encoding round-trips: converting any
`OpCode` to its `u8` discriminant and back yields `Ok` of the same
opcode, and every byte strictly greater than the encoding of `Return`
(36) is rejected by `TryInto<OpCode>`. -/
theorem OpCode.byte_roundtrip :
    (∀ v : OpCode, OpCode.ofU8 v.toU8 = Except.ok v) ∧
    (∀ b : Nat, OpCode.Return.toU8 < b → b ≤ 255 →
      OpCode.ofU8 b = Except.error ()) := by
  constructor
  · intro v
    cases v <;> rfl
  · intro b hb _
    have hgt : b > OpCode.Return.toU8 := hb
    simp [OpCode.ofU8, hgt]

/-- Witness for C10 at concrete values: `Add` round-trips and byte 37 is
rejected. -/
theorem OpCode.byte_roundtrip_witness :
    OpCode.ofU8 (OpCode.toU8 OpCode.Add) = Except.ok OpCode.Add ∧
    OpCode.ofU8 37 = Except.error () :=
  ⟨OpCode.byte_roundtrip.1 OpCode.Add,
    OpCode.byte_roundtrip.2 37 (by decide) (by decide)⟩

end Loxide
